import Mathlib

/-!
Verification of the adbfs translation layer (Go) against its specification.

Each Go function referenced by a claim is shallowly embedded as an executable
Lean definition, translated from the Go source.  Machine integers are modelled
as `Nat`/`Int`; Go `error` values are modelled by small inductive error types;
Go panics are modelled by `Option` results (`none` = panic); device I/O is
modelled by passing the outcome of each device call as an explicit argument.
-/

/-- Errno values used by the adbfs error mapping (`errors.go`). -/
inductive Errno where
  | OK
  | EACCES
  | EPERM
  | EINVAL
  | ENOENT
  | ELOOP
  | ENOSYS
  | Eio
  deriving DecidableEq, Repr

/-- Errors produced by the device client itself (goadb side): either a
"file does not exist" coded error or any other unclassified error. -/
inductive DevErr where
  | fileNoExist
  | ioOther
  deriving DecidableEq, Repr

/-- The adbfs error taxonomy: the sentinel error values of `errors.go`
(`ErrLinkTooDeep`, `ErrNotALink`, `ErrNoPermission`, `ErrNotPermitted`),
goadb coded errors, raw `syscall.Errno` values (as returned by `rmdir`),
and unclassified errors. -/
inductive AdbErr where
  | linkTooDeep
  | notALink
  | noPermission
  | notPermitted
  | fileNoExist
  | errnoVal (e : Errno)
  | ioOther
  deriving DecidableEq, Repr

/-- Device errors embed into the adbfs error taxonomy unchanged in kind. -/
def DevErr.toAdb : DevErr → AdbErr
  | .fileNoExist => .fileNoExist
  | .ioOther => .ioOther

/-- Embedding of `toErrno` (`errors.go`): converts a known error to an Errno,
or EIO if the error is not known.  `none` models a nil Go error. -/
def toErrno : Option AdbErr → Errno
  | none => .OK
  | some .linkTooDeep => .ELOOP
  | some .notALink => .EINVAL
  | some .noPermission => .EACCES
  | some .notPermitted => .EPERM
  | some .fileNoExist => .ENOENT
  | some (.errnoVal e) => e
  | some .ioOther => .Eio

/-! ### Mutating shell operations (`AdbFileSystem.Mkdir/Rename/Rmdir/Unlink`) -/

/-- Outcome of one of the four mutating filesystem operations: the errno
returned to the kernel and whether a device `RunCommand` was issued. -/
structure MutationResult where
  status : Errno
  ranCommand : Bool
  deriving DecidableEq, Repr

/-- Embedding of the helper `mkdir` (`adb_filesystem.go`): runs
`RunCommand("mkdir", path)`; a non-empty stdout is mapped to
`ErrNoPermission`.  `run` is the outcome of the `RunCommand` call. -/
def mkdirCmd (run : Except DevErr String) : Option AdbErr :=
  match run with
  | .error e => some e.toAdb
  | .ok result => if result ≠ "" then some .noPermission else none

/-- Embedding of the helper `rename`: `RunCommand("mv", old, new)` with the
same non-empty-stdout heuristic as `mkdir`. -/
def renameCmd (run : Except DevErr String) : Option AdbErr :=
  match run with
  | .error e => some e.toAdb
  | .ok result => if result ≠ "" then some .noPermission else none

/-- Embedding of the helper `rmdir`: `RunCommand("rmdir", name)`; a non-empty
stdout is mapped to the raw errno `syscall.EINVAL`. -/
def rmdirCmd (run : Except DevErr String) : Option AdbErr :=
  match run with
  | .error e => some e.toAdb
  | .ok result => if result ≠ "" then some (.errnoVal .EINVAL) else none

/-- Embedding of the helper `unlink`: `RunCommand("rm", name)` with the same
non-empty-stdout heuristic as `mkdir`. -/
def unlinkCmd (run : Except DevErr String) : Option AdbErr :=
  match run with
  | .error e => some e.toAdb
  | .ok result => if result ≠ "" then some .noPermission else none

/-- Embedding of `AdbFileSystem.Mkdir`: a read-only filesystem short-circuits
to `ErrNotPermitted` before acquiring a device client; otherwise the shell
helper runs and its error is mapped through `toErrno`. -/
def fsMkdir (readOnly : Bool) (run : Except DevErr String) : MutationResult :=
  if readOnly then ⟨toErrno (some .notPermitted), false⟩
  else ⟨toErrno (mkdirCmd run), true⟩

/-- Embedding of `AdbFileSystem.Rename` (read-only policy plus `mv`). -/
def fsRename (readOnly : Bool) (run : Except DevErr String) : MutationResult :=
  if readOnly then ⟨toErrno (some .notPermitted), false⟩
  else ⟨toErrno (renameCmd run), true⟩

/-- Embedding of `AdbFileSystem.Rmdir` (read-only policy plus `rmdir`). -/
def fsRmdir (readOnly : Bool) (run : Except DevErr String) : MutationResult :=
  if readOnly then ⟨toErrno (some .notPermitted), false⟩
  else ⟨toErrno (rmdirCmd run), true⟩

/-- Embedding of `AdbFileSystem.Unlink` (read-only policy plus `rm`). -/
def fsUnlink (readOnly : Bool) (run : Except DevErr String) : MutationResult :=
  if readOnly then ⟨toErrno (some .notPermitted), false⟩
  else ⟨toErrno (unlinkCmd run), true⟩

/-- C1: with the read-only flag set, Mkdir, Rename, Rmdir and Unlink return
EPERM without issuing a RunCommand; without it, each issues its command and
succeeds iff the command returns empty stdout, a non-empty stdout mapping to
EINVAL for Rmdir and EACCES for the other three. -/
theorem mutating_ops_policy (run : Except DevErr String) (s : String)
    (h : run = .ok s) :
    (fsMkdir true run = ⟨.EPERM, false⟩ ∧ fsRename true run = ⟨.EPERM, false⟩ ∧
     fsRmdir true run = ⟨.EPERM, false⟩ ∧ fsUnlink true run = ⟨.EPERM, false⟩) ∧
    ((fsMkdir false run).ranCommand = true ∧ (fsRename false run).ranCommand = true ∧
     (fsRmdir false run).ranCommand = true ∧ (fsUnlink false run).ranCommand = true) ∧
    ((fsMkdir false run).status = .OK ↔ s = "") ∧
    ((fsRename false run).status = .OK ↔ s = "") ∧
    ((fsRmdir false run).status = .OK ↔ s = "") ∧
    ((fsUnlink false run).status = .OK ↔ s = "") ∧
    (s ≠ "" →
      (fsMkdir false run).status = .EACCES ∧
      (fsRename false run).status = .EACCES ∧
      (fsRmdir false run).status = .EINVAL ∧
      (fsUnlink false run).status = .EACCES) := by
  subst h
  refine ⟨⟨rfl, rfl, rfl, rfl⟩, ⟨rfl, rfl, rfl, rfl⟩, ?_, ?_, ?_, ?_, ?_⟩ <;>
    by_cases hs : s = "" <;>
    simp [fsMkdir, fsRename, fsRmdir, fsUnlink, mkdirCmd, renameCmd, rmdirCmd,
      unlinkCmd, toErrno, hs]

/-- Witness for C1 at concrete inputs: empty stdout succeeds, and the
read-only short-circuit holds. -/
theorem mutating_ops_policy_witness :
    (fsMkdir true (.ok "") = ⟨.EPERM, false⟩ ∧ fsRename true (.ok "") = ⟨.EPERM, false⟩ ∧
     fsRmdir true (.ok "") = ⟨.EPERM, false⟩ ∧ fsUnlink true (.ok "") = ⟨.EPERM, false⟩) ∧
    ((fsMkdir false (.ok "")).ranCommand = true ∧ (fsRename false (.ok "")).ranCommand = true ∧
     (fsRmdir false (.ok "")).ranCommand = true ∧ (fsUnlink false (.ok "")).ranCommand = true) ∧
    ((fsMkdir false (.ok "")).status = .OK ↔ ("" : String) = "") ∧
    ((fsRename false (.ok "")).status = .OK ↔ ("" : String) = "") ∧
    ((fsRmdir false (.ok "")).status = .OK ↔ ("" : String) = "") ∧
    ((fsUnlink false (.ok "")).status = .OK ↔ ("" : String) = "") ∧
    (("" : String) ≠ "" →
      (fsMkdir false (.ok "")).status = .EACCES ∧
      (fsRename false (.ok "")).status = .EACCES ∧
      (fsRmdir false (.ok "")).status = .EINVAL ∧
      (fsUnlink false (.ok "")).status = .EACCES) :=
  mutating_ops_policy (.ok "") "" rfl

/-! ### `parseStatfs` (`adb_filesystem.go`) -/

/-- Fields of `fuse.StatfsOut` assigned by `parseStatfs`; all start at zero. -/
structure StatfsOut where
  NameLen : Nat
  Bsize : Nat
  Blocks : Nat
  Bfree : Nat
  Bavail : Nat
  Files : Nat
  Ffree : Nat
  deriving DecidableEq, Repr

/-- The zero `fuse.StatfsOut` allocated by `new(fuse.StatfsOut)`. -/
def StatfsOut.zero : StatfsOut := ⟨0, 0, 0, 0, 0, 0, 0⟩

/-- ASCII whitespace, as recognised by `bufio.ScanWords` on the outputs in
scope. -/
def isSpaceChar (c : Char) : Bool :=
  c = ' ' ∨ c = '\t' ∨ c = '\n' ∨ c = '\r' ∨ c = '\x0b' ∨ c = '\x0c'

/-- Word scanner over the character list; `acc` is the reversed current
word. -/
def scanWordsAux : List Char → List Char → List String
  | [], acc => if acc = [] then [] else [⟨acc.reverse⟩]
  | c :: rest, acc =>
    if isSpaceChar c then
      if acc = [] then scanWordsAux rest []
      else ⟨acc.reverse⟩ :: scanWordsAux rest []
    else scanWordsAux rest (c :: acc)

/-- Embedding of `bufio.ScanWords`: the whitespace-separated words of the
input. -/
def scanWords (s : String) : List String := scanWordsAux s.data []

/-- Embedding of `strings.HasSuffix`. -/
def goHasSuffix (s suffix : String) : Bool := suffix.data.isSuffixOf s.data

/-- Embedding of `strconv.Atoi`: an optional sign followed by at least one
decimal digit; anything else is a parse failure. -/
def goAtoi (s : String) : Option Int :=
  match s.data with
  | [] => none
  | c :: rest =>
    let signDigits : Bool × List Char :=
      if c = '-' then (true, rest)
      else if c = '+' then (false, rest)
      else (false, c :: rest)
    if signDigits.2 = [] ∨ ¬ signDigits.2.all (fun d => d.isDigit) then none
    else
      let n : Nat := signDigits.2.foldl (fun acc d => 10 * acc + (d.toNat - 48)) 0
      some (if signDigits.1 then -(n : Int) else (n : Int))

/-- Conversion `uint32(intVal)` from a Go int. -/
def goUInt32 (i : Int) : Nat := (i % (2 ^ 32)).toNat

/-- Conversion `uint64(intVal)` from a Go int. -/
def goUInt64 (i : Int) : Nat := (i % (2 ^ 64)).toNat

/-- Embedding of `strings.TrimSuffix`. -/
def trimSuffix (s suffix : String) : String :=
  if goHasSuffix s suffix then ⟨s.data.take (s.data.length - suffix.data.length)⟩
  else s

/-- One assignment step of the `parseStatfs` token loop: `key` has already
been trimmed of its `:` suffix and `value` is the current token.  Returns the
updated struct, or the key for which the value failed to parse (the switch
clears the parse error for unrecognised keys). -/
def statfsAssign (scope key value : String) (stat : StatfsOut) :
    Except String StatfsOut :=
  let intVal? := goAtoi value
  match key with
  | "Namelen" =>
    match intVal? with
    | some i => .ok { stat with NameLen := goUInt32 i }
    | none => .error key
  | "Blocksize" =>
    match intVal? with
    | some i => .ok { stat with Bsize := goUInt32 i }
    | none => .error key
  | "Total" =>
    match intVal? with
    | some i =>
      match scope with
      | "Blocks" => .ok { stat with Blocks := goUInt64 i }
      | "Inodes" => .ok { stat with Files := goUInt64 i }
      | _ => .ok stat
    | none => .error key
  | "Free" =>
    match intVal? with
    | some i =>
      match scope with
      | "Blocks" => .ok { stat with Bfree := goUInt64 i }
      | "Inodes" => .ok { stat with Ffree := goUInt64 i }
      | _ => .ok stat
    | none => .error key
  | "Available" =>
    match intVal? with
    | some i =>
      match scope with
      | "Blocks" => .ok { stat with Bavail := goUInt64 i }
      | _ => .ok stat
    | none => .error key
  | _ => .ok stat

/-- The token loop of `parseStatfs`: multi-word keys are accumulated until a
`:` suffix appears; a token ending in `:` while a key is pending makes the
pending key the scope prefix; otherwise the token is the value for the
pending key. -/
def parseStatfsLoop : List String → String → String → StatfsOut →
    Except String StatfsOut
  | [], _, _, stat => .ok stat
  | tok :: rest, scope, key, stat =>
    if ¬ goHasSuffix key ":" then
      parseStatfsLoop rest scope (key ++ tok) stat
    else if goHasSuffix tok ":" then
      parseStatfsLoop rest (trimSuffix key ":") tok stat
    else
      let key1 := trimSuffix key ":"
      match statfsAssign scope key1 tok stat with
      | .ok stat1 => parseStatfsLoop rest scope "" stat1
      | .error badKey => .error ("invalid value for " ++ badKey ++ ": " ++ tok)

/-- Embedding of `parseStatfs` (`adb_filesystem.go`): empty input is the
parse error "no output"; otherwise the output is tokenised into words and
folded through the key/scope/value state machine. -/
def parseStatfs (output : String) : Except String StatfsOut :=
  if output = "" then .error "no output"
  else parseStatfsLoop (scanWords output) "" "" StatfsOut.zero

/-- The example `stat -f` output from the spec. -/
def statfsExample : String :=
  "File: \"/sdcard/Pictures\"\n" ++
  "ID: 0        Namelen: 255     Type: UNKNOWN\n" ++
  "Block size: 4096\n" ++
  "Blocks: Total: 1269664    Free: 1209578    Available: 1205482\n" ++
  "Inodes: Total: 327680     Free: 326438\n"

/-- C8: `parseStatfs` on the example output yields the documented field
values; on "Namelen: a" it fails with "invalid value for Namelen: a"; on
empty input it fails with "no output". -/
theorem parseStatfs_examples :
    parseStatfs statfsExample =
      .ok ⟨255, 4096, 1269664, 1209578, 1205482, 327680, 326438⟩ ∧
    parseStatfs "Namelen: a" = .error "invalid value for Namelen: a" ∧
    parseStatfs "" = .error "no output" := by
  refine ⟨?_, ?_, ?_⟩ <;> rfl

/-! ### `LogEntry` recording methods (`log_entry.go`) -/

/-- The recordable state of a `LogEntry`: the optional error, the result and
status strings (empty = unset, as in the Go zero values), and the cache
flags.  Construction metadata (name, path, start time, trace) does not
affect the recording methods and is omitted. -/
structure LogEntry where
  err : Option AdbErr
  result : String
  status : String
  cacheUsed : Bool
  cacheHit : Bool
  deriving DecidableEq, Repr

/-- A fresh `LogEntry` as produced by `StartOperation`. -/
def LogEntry.fresh : LogEntry := ⟨none, "", "", false, false⟩

/-- Embedding of `LogEntry.Error`: records a failure; a second call finds
`r.err` non-nil and panics (modelled as `none`). -/
def LogEntry.recError (r : LogEntry) (e : AdbErr) : Option LogEntry :=
  if r.err ≠ none then none
  else some { r with err := some e }

/-- Embedding of `LogEntry.Result`: `msg` is the already-formatted result
string; a second call finds `r.result` non-empty and panics. -/
def LogEntry.recResult (r : LogEntry) (msg : String) : Option LogEntry :=
  if r.result ≠ "" then none
  else some { r with result := msg }

/-- The string stored by `LogEntry.Status`: "OK" for errno 0, else the
(non-empty) `Error()` string of the errno. -/
def statusString (status : Errno) : String :=
  match status with
  | .OK => "OK"
  | .EACCES => "permission denied"
  | .EPERM => "operation not permitted"
  | .EINVAL => "invalid argument"
  | .ENOENT => "no such file or directory"
  | .ELOOP => "too many levels of symbolic links"
  | .ENOSYS => "function not implemented"
  | .Eio => "input/output error"

/-- Embedding of `LogEntry.Status`: records the status string; a second call
finds `r.status` non-empty and panics. -/
def LogEntry.recStatus (r : LogEntry) (status : Errno) : Option LogEntry :=
  if r.status ≠ "" then none
  else some { r with status := statusString status }

/-- Embedding of `LogEntry.CacheUsed`: sets the used flag and ORs the hit
flag.  The Go method has no repeated-call check and cannot panic, so the
result is always `some`. -/
def LogEntry.recCacheUsed (r : LogEntry) (hit : Bool) : Option LogEntry :=
  some { r with cacheUsed := true, cacheHit := r.cacheHit || hit }

/-- Counterexample to C9: calling `CacheUsed` twice on one `LogEntry` does
not panic — the second call succeeds (and the claim says the second call is
a detected programming error). -/
theorem logEntry_cacheUsed_twice_no_panic :
    (LogEntry.fresh.recCacheUsed true).bind (fun r => r.recCacheUsed true) =
      some ⟨none, "", "", true, true⟩ := rfl

/-- C9 (amended): `Error` and `Status` panic on a second call; `Result`
panics on a second call provided the first recorded a non-empty string;
`CacheUsed` may be called any number of times and never panics. -/
theorem logEntry_at_most_once (r r1 r2 r3 : LogEntry) (e e1 : AdbErr)
    (s s1 : String) (st st1 : Errno) (hit : Bool)
    (herr : r.recError e = some r1) (hres : r.recResult s = some r2)
    (hs : s ≠ "") (hst : r.recStatus st = some r3) :
    r1.recError e1 = none ∧
    r2.recResult s1 = none ∧
    r3.recStatus st1 = none ∧
    (r.recCacheUsed hit).isSome = true := by
  refine ⟨?_, ?_, ?_, rfl⟩
  · simp only [LogEntry.recError, ne_eq, ite_not] at herr ⊢
    split at herr
    · cases herr
      simp
    · exact absurd herr (by simp)
  · simp only [LogEntry.recResult, ne_eq, ite_not] at hres ⊢
    split at hres
    · cases hres
      simp [hs]
    · exact absurd hres (by simp)
  · simp only [LogEntry.recStatus, ne_eq, ite_not] at hst ⊢
    split at hst
    · cases hst
      cases st <;> simp [statusString]
    · exact absurd hst (by simp)

/-- Witness for the amended C9: on a fresh entry each first call succeeds
with the same recorded state, and the theorem then gives the second-call
panics. -/
theorem logEntry_at_most_once_witness :
    (⟨some .notALink, "", "", false, false⟩ : LogEntry).recError .notALink = none ∧
    (⟨none, "x", "", false, false⟩ : LogEntry).recResult "y" = none ∧
    (⟨none, "", "OK", false, false⟩ : LogEntry).recStatus .EPERM = none ∧
    (LogEntry.fresh.recCacheUsed true).isSome = true :=
  logEntry_at_most_once LogEntry.fresh
    ⟨some .notALink, "", "", false, false⟩ ⟨none, "x", "", false, false⟩
    ⟨none, "", "OK", false, false⟩ .notALink .notALink "x" "y" .OK .EPERM
    true (by decide) (by decide) (by decide) (by decide)

/-! ### `GrowableByteSlice` (`internal/util`, unnamed/part_003) -/

/-- Embedding of `GrowableByteSlice`: `arr` is the full underlying array
(its length is the capacity of the Go slice) and `len` is the slice length.
Bytes of `arr` between `len` and the capacity persist across in-place
resizes, exactly as in the Go backing array. -/
structure GrowableByteSlice where
  arr : List Nat
  len : Nat
  deriving DecidableEq, Repr

/-- A `new(GrowableByteSlice)`: nil slice, length and capacity 0. -/
def GrowableByteSlice.empty : GrowableByteSlice := ⟨[], 0⟩

/-- The visible contents (`s.data` in Go): the first `len` bytes. -/
def GrowableByteSlice.contents (s : GrowableByteSlice) : List Nat :=
  s.arr.take s.len

/-- Embedding of `reallocate`: a fresh zeroed array of capacity
`max (2*newLen) 1024` with the first `min newLen len` bytes copied over. -/
def GrowableByteSlice.reallocate (s : GrowableByteSlice) (newLen : Nat) :
    GrowableByteSlice :=
  let newCapacity := if 2 * newLen < 1024 then 1024 else 2 * newLen
  let copied := s.contents.take newLen
  ⟨copied ++ List.replicate (newCapacity - copied.length) 0, newLen⟩

/-- Embedding of `shrink`: reallocate when `len(s.data) < cap(s.data)/3`;
otherwise shrink in place.  The Go in-place branch runs
`for i := range s.data[newLen:] { s.data[i] = 0 }`, which zeroes the
indices `0 .. len-newLen-1` (the head of the array), not the surrendered
tail. -/
def GrowableByteSlice.shrink (s : GrowableByteSlice) (newLen : Nat) :
    GrowableByteSlice :=
  if s.len < s.arr.length / 3 then
    s.reallocate newLen
  else
    ⟨List.replicate (s.len - newLen) 0 ++ s.arr.drop (s.len - newLen), newLen⟩

/-- Embedding of `Resize`: shrink when smaller, no-op when equal, extend the
slice within capacity, else reallocate.  (A negative `newLen` panics in Go;
lengths are modelled as `Nat`.) -/
def GrowableByteSlice.resize (s : GrowableByteSlice) (newLen : Nat) :
    GrowableByteSlice :=
  if newLen < s.len then s.shrink newLen
  else if newLen = s.len then s
  else if newLen ≤ s.arr.length then ⟨s.arr, newLen⟩
  else s.reallocate newLen

/-- Embedding of `WriteAt` (via `slice(off, off+len(data))`): grow to
`off+len(data)` if needed, then copy `data` into the underlying array at
`off`. -/
def GrowableByteSlice.writeAt (s : GrowableByteSlice) (data : List Nat)
    (off : Nat) : GrowableByteSlice :=
  let endPos := off + data.length
  let s1 := if endPos > s.len then s.resize endPos else s
  ⟨s1.arr.take off ++ data ++ s1.arr.drop endPos, s1.len⟩

/-- Embedding of `ReadAt`: result is the bytes read, the count, and the EOF
flag (`io.EOF`).  Reading at or past the length yields `(0, EOF)`; a read
that reaches the end also yields EOF. -/
def GrowableByteSlice.readAt (s : GrowableByteSlice) (bufLen off : Nat) :
    List Nat × Nat × Bool :=
  if off ≥ s.len then ([], 0, true)
  else
    let n := min bufLen (s.len - off)
    ((s.contents.drop off).take n, n, n + off = s.len)

/-- Embedding of `Len`. -/
def GrowableByteSlice.goLen (s : GrowableByteSlice) : Nat := s.len

set_option maxRecDepth 100000 in
/-- C6 (code bug): write 512 ones, `Resize(400)`, then `Resize(450)`.  The
claim (and the doc comment on `Resize`/`shrink`) requires bytes `[400,450)`
to read back as zero; the in-place shrink instead zeroes the head of the
array, so the regrown tail still holds the old ones and the first 112
retained bytes are destroyed. -/
theorem growable_shrink_zeroing_bug :
    ((((GrowableByteSlice.empty.writeAt (List.replicate 512 1) 0).resize
        400).resize 450).readAt 50 400).1 = List.replicate 50 1 ∧
    ((((GrowableByteSlice.empty.writeAt (List.replicate 512 1) 0).resize
        400).resize 450).readAt 112 0).1 = List.replicate 112 0 ∧
    (List.replicate 50 1 ≠ List.replicate 50 (0 : Nat)) := by
  refine ⟨by rfl, by rfl, by decide⟩

/-! ### `DirtyTimestamp` and `FileBuffer` writeback (`file_buffer.go`,
`internal/util/dirty_timestamp.go`) -/

/-- Embedding of `DirtyTimestamp.HasBeenDirtyFor`: set and strictly older
than `d`. -/
def hasBeenDirtyFor (t : Option Nat) (d now : Nat) : Bool :=
  match t with
  | none => false
  | some t0 => t0 + d < now

/-- The mutable state of a `FileBuffer`: the growable buffer, the
dirty-timestamp and the permission mode used for writeback. -/
structure FileBufferState where
  buffer : GrowableByteSlice
  dirty : Option Nat
  perms : Nat
  deriving DecidableEq, Repr

/-- Embedding of `FileBuffer.saveToDevice`: `OpenWrite`, stream the buffer,
`Close`; the dirty-timestamp is cleared only after all three succeeded.
The outcome of each device step is passed in (`none` = step succeeded). -/
def saveToDevice (f : FileBufferState)
    (openErr streamErr closeErr : Option DevErr) :
    FileBufferState × Option AdbErr :=
  match openErr with
  | some e => (f, some e.toAdb)
  | none =>
    match streamErr with
    | some e => (f, some e.toAdb)
    | none =>
      match closeErr with
      | some e => (f, some e.toAdb)
      | none => ({ f with dirty := none }, none)

/-- Embedding of `FileBuffer.loadFromDevice`: `OpenRead` then `ReadFrom`
replaces the whole buffer contents. -/
def loadFromDevice (f : FileBufferState)
    (openReadResult : Except DevErr (List Nat)) :
    FileBufferState × Option AdbErr :=
  match openReadResult with
  | .error e => (f, some e.toAdb)
  | .ok bs => ({ f with buffer := ⟨bs, bs.length⟩ }, none)

/-- Embedding of `FileBuffer.Sync`: write back if dirty, else reload. -/
def fbSync (f : FileBufferState) (openErr streamErr closeErr : Option DevErr)
    (openReadResult : Except DevErr (List Nat)) :
    FileBufferState × Option AdbErr :=
  if f.dirty.isSome then saveToDevice f openErr streamErr closeErr
  else loadFromDevice f openReadResult

/-- Embedding of `FileBuffer.SyncIfTooDirty`: write back iff the buffer has
been dirty for longer than the timeout. -/
def fbSyncIfTooDirty (f : FileBufferState) (timeout now : Nat)
    (openErr streamErr closeErr : Option DevErr) :
    FileBufferState × Option AdbErr :=
  if hasBeenDirtyFor f.dirty timeout now then
    saveToDevice f openErr streamErr closeErr
  else (f, none)

/-- Go `os` open-flag bit values (Linux), as used by `FileOpenFlags`. -/
def O_RDONLY : Nat := 0
/-- Write-only open flag bit. -/
def O_WRONLY : Nat := 1
/-- Read-write open flag bit. -/
def O_RDWR : Nat := 2
/-- Append open flag bit. -/
def O_APPEND : Nat := 1024
/-- Create open flag bit. -/
def O_CREATE : Nat := 64
/-- Exclusive-create open flag bit. -/
def O_EXCL : Nat := 128
/-- Truncate open flag bit. -/
def O_TRUNC : Nat := 512

/-- Embedding of `FileOpenFlags.Contains`: true if any of `bits` is set. -/
def flagsContain (f bits : Nat) : Bool := f &&& bits ≠ 0

/-- Embedding of `FileOpenFlags.CanRead`: `O_RDONLY` is 0, so readability is
the absence of `O_WRONLY`. -/
def flagsCanRead (f : Nat) : Bool := ¬ flagsContain f O_WRONLY

/-- Embedding of `FileOpenFlags.CanWrite`. -/
def flagsCanWrite (f : Nat) : Bool := flagsContain f (O_WRONLY ||| O_RDWR)

/-- The `DontSetPerms` sentinel (`adb_file.go`). -/
def DontSetPerms : Nat := 0

/-- The default permissions for newly created files (`file_buffer.go`). -/
def DefaultFilePermissions : Nat := 0o664

/-- A directory entry as returned by the device client (goadb `DirEntry`).
`mode` is the Go `os.FileMode` bitfield. -/
structure DirEntry where
  name : String
  size : Int
  mode : Nat
  deriving DecidableEq, Repr

/-- The `os.ModeSymlink` bit of a Go `os.FileMode`. -/
def ModeSymlink : Nat := 1 <<< 27

/-- Test `entry.Mode & os.ModeSymlink == os.ModeSymlink`. -/
def DirEntry.isSymlink (e : DirEntry) : Bool :=
  e.mode &&& ModeSymlink = ModeSymlink

/-- Go `FileMode.Perm()`: the 0o777 permission bits. -/
def goPerm (mode : Nat) : Nat := mode &&& 0o777

/-- The device calls a `FileBuffer` can make during creation. -/
inductive DevCall where
  | statCall
  | openRead
  | openWrite
  deriving DecidableEq, Repr

/-- The behaviour of the device client owned by a `FileBuffer`: the outcome
of `Stat`, of `OpenRead` (the streamed contents on success), and of the
three steps of a writeback. -/
structure FBDevice where
  statResult : Except DevErr DirEntry
  openReadResult : Except DevErr (List Nat)
  openWriteErr : Option DevErr
  streamErr : Option DevErr
  closeErr : Option DevErr
  deriving Repr

/-- Embedding of `FileBuffer.initialize` (called from `NewFileBuffer`).
`optPerms` is `FileBufferOptions.Perms`.  Returns the resulting state (or
the error that aborts creation) together with the list of device calls
issued.  Notes: `getFilePermissions` wraps its error, which preserves the
goadb error code; the final `f.Sync(logEntry)` return value is discarded by
the Go code, so a failed initial load or save does not abort creation. -/
def initFileBuffer (flags optPerms : Nat) (dev : FBDevice) (now : Nat) :
    Except AdbErr FileBufferState × List DevCall :=
  if flagsContain flags (O_CREATE ||| O_TRUNC ||| O_APPEND) ∧
      ¬ flagsCanWrite flags then
    (.error .notPermitted, [])
  else
    match dev.statResult with
    | .error .fileNoExist =>
      if ¬ flagsContain flags O_CREATE then
        -- the file does not exist and cannot be created
        (.error DevErr.fileNoExist.toAdb, [.statCall])
      else
        -- createNewFile: default permissions, marked dirty, then the
        -- trailing Sync immediately writes the empty buffer back
        let perms := if optPerms = DontSetPerms then DefaultFilePermissions
          else optPerms
        let f0 : FileBufferState := ⟨GrowableByteSlice.empty, some now, perms⟩
        let saved := saveToDevice f0 dev.openWriteErr dev.streamErr dev.closeErr
        (.ok saved.1, [.statCall, .openWrite])
    | .error e => (.error e.toAdb, [.statCall])
    | .ok entry =>
      let currentPerms := goPerm entry.mode
      let perms := if optPerms = DontSetPerms then currentPerms else optPerms
      if flagsContain flags O_TRUNC then
        -- existing file truncated: marked dirty, then synced (written back)
        let f0 : FileBufferState := ⟨GrowableByteSlice.empty, some now, perms⟩
        let saved := saveToDevice f0 dev.openWriteErr dev.streamErr dev.closeErr
        (.ok saved.1, [.statCall, .openWrite])
      else
        -- existing file, no truncate: not dirty, so the Sync loads it
        let f0 : FileBufferState := ⟨GrowableByteSlice.empty, none, perms⟩
        let loaded := loadFromDevice f0 dev.openReadResult
        (.ok loaded.1, [.statCall, .openRead])

/-- Counterexample to C5: opening an existing file with `O_RDWR|O_CREATE`
(no TRUNC) does not leave the buffer empty and dirty — the contents are
streamed from the device via `OpenRead` and the buffer is clean. -/
theorem initFileBuffer_create_existing_loads :
    initFileBuffer (O_RDWR ||| O_CREATE) DontSetPerms
        ⟨.ok ⟨"f", 2, 0o644⟩, .ok [104, 105], none, none, none⟩ 5 =
      (.ok ⟨⟨[104, 105], 2⟩, none, 0o644⟩, [.statCall, .openRead]) ∧
    ([104, 105] : List Nat) ≠ [] := by
  exact ⟨rfl, by decide⟩

/-- C5 (amended): a flag combination containing CREATE, TRUNC or APPEND
without a write-capable mode fails NotPermitted with no device call.
Otherwise, if TRUNC is set, or CREATE is set and the file does not exist,
the buffer is left empty and marked dirty (and the trailing Sync
immediately attempts the writeback, issuing OpenWrite and no OpenRead; the
dirty flag survives unless the writeback fully succeeds); in every other
case — including CREATE on an existing file without TRUNC and plain
read-only opens — the contents are loaded by streaming OpenRead, the
buffer is not marked dirty, and no writeback is attempted. -/
theorem initFileBuffer_empty_dirty_cases (flags optPerms now : Nat)
    (dev : FBDevice) (entry : DirEntry) (bs : List Nat) :
    (flagsContain flags (O_CREATE ||| O_TRUNC ||| O_APPEND) = true →
      flagsCanWrite flags = false →
      initFileBuffer flags optPerms dev now = (.error .notPermitted, [])) ∧
    (¬ (flagsContain flags (O_CREATE ||| O_TRUNC ||| O_APPEND) = true ∧
        ¬ flagsCanWrite flags = true) →
      ((dev.statResult = .error .fileNoExist ∧ flagsContain flags O_CREATE) ∨
          (dev.statResult = .ok entry ∧ flagsContain flags O_TRUNC) →
        ∃ st, initFileBuffer flags optPerms dev now =
            (.ok st, [.statCall, .openWrite]) ∧
          st.buffer.contents = [] ∧
          st.dirty = (if dev.openWriteErr = none ∧ dev.streamErr = none ∧
            dev.closeErr = none then none else some now)) ∧
      (dev.statResult = .ok entry ∧ ¬ flagsContain flags O_TRUNC ∧
          dev.openReadResult = .ok bs →
        ∃ st, initFileBuffer flags optPerms dev now =
            (.ok st, [.statCall, .openRead]) ∧
          st.buffer.contents = bs ∧ st.dirty = none)) := by
  constructor
  · intro hg hnw
    simp [initFileBuffer, hg, hnw]
  · intro hw
    constructor
    · rintro (⟨hstat, hc⟩ | ⟨hstat, ht⟩)
      · refine ⟨(saveToDevice
            ⟨GrowableByteSlice.empty, some now,
              if optPerms = DontSetPerms then DefaultFilePermissions
              else optPerms⟩
            dev.openWriteErr dev.streamErr dev.closeErr).1, ?_, ?_, ?_⟩
        · simp [initFileBuffer, hstat, hc, hw]
          tauto
        · cases dev.openWriteErr <;> cases dev.streamErr <;>
            cases dev.closeErr <;>
            simp [saveToDevice, GrowableByteSlice.contents,
              GrowableByteSlice.empty]
        · cases dev.openWriteErr <;> cases dev.streamErr <;>
            cases dev.closeErr <;> simp [saveToDevice]
      · refine ⟨(saveToDevice
            ⟨GrowableByteSlice.empty, some now,
              if optPerms = DontSetPerms then goPerm entry.mode
              else optPerms⟩
            dev.openWriteErr dev.streamErr dev.closeErr).1, ?_, ?_, ?_⟩
        · simp [initFileBuffer, hstat, ht, hw]
          tauto
        · cases dev.openWriteErr <;> cases dev.streamErr <;>
            cases dev.closeErr <;>
            simp [saveToDevice, GrowableByteSlice.contents,
              GrowableByteSlice.empty]
        · cases dev.openWriteErr <;> cases dev.streamErr <;>
            cases dev.closeErr <;> simp [saveToDevice]
    · rintro ⟨hstat, ht, hread⟩
      refine ⟨⟨⟨bs, bs.length⟩, none,
          if optPerms = DontSetPerms then goPerm entry.mode else optPerms⟩,
        ?_, ?_, rfl⟩
      · simp [initFileBuffer, hstat, ht, hw, hread, loadFromDevice]
        tauto
      · simp [GrowableByteSlice.contents]

/-- Witness for the amended C5: a write-incapable create (plain O_CREATE)
fails NotPermitted; a read-write create of a missing file writes back an
empty dirty buffer; and a plain read-only open of an existing file loads
its contents clean. -/
theorem initFileBuffer_empty_dirty_cases_witness :
    (flagsContain O_CREATE (O_CREATE ||| O_TRUNC ||| O_APPEND) = true →
      flagsCanWrite O_CREATE = false →
      initFileBuffer O_CREATE DontSetPerms
          ⟨.error .fileNoExist, .ok [104, 105], none, none, none⟩ 5 =
        (.error .notPermitted, [])) ∧
    (¬ (flagsContain (O_RDWR ||| O_CREATE) (O_CREATE ||| O_TRUNC ||| O_APPEND) = true ∧
        ¬ flagsCanWrite (O_RDWR ||| O_CREATE) = true) →
      (((.error .fileNoExist : Except DevErr DirEntry) = .error .fileNoExist ∧
          flagsContain (O_RDWR ||| O_CREATE) O_CREATE) ∨
          ((.error .fileNoExist : Except DevErr DirEntry) = .ok ⟨"f", 2, 0o644⟩ ∧
          flagsContain (O_RDWR ||| O_CREATE) O_TRUNC) →
        ∃ st, initFileBuffer (O_RDWR ||| O_CREATE) DontSetPerms
            ⟨.error .fileNoExist, .ok [104, 105], none, none, none⟩ 5 =
            (.ok st, [.statCall, .openWrite]) ∧
          st.buffer.contents = [] ∧
          st.dirty = (if (none : Option DevErr) = none ∧
            (none : Option DevErr) = none ∧ (none : Option DevErr) = none
            then none else some 5))) ∧
    (¬ (flagsContain O_RDONLY (O_CREATE ||| O_TRUNC ||| O_APPEND) = true ∧
        ¬ flagsCanWrite O_RDONLY = true) →
      ((.ok ⟨"f", 2, 0o644⟩ : Except DevErr DirEntry) = .ok ⟨"f", 2, 0o644⟩ ∧
          ¬ flagsContain O_RDONLY O_TRUNC ∧
          (.ok [104, 105] : Except DevErr (List Nat)) = .ok [104, 105] →
        ∃ st, initFileBuffer O_RDONLY DontSetPerms
            ⟨.ok ⟨"f", 2, 0o644⟩, .ok [104, 105], none, none, none⟩ 5 =
            (.ok st, [.statCall, .openRead]) ∧
          st.buffer.contents = [104, 105] ∧ st.dirty = none)) :=
  ⟨(initFileBuffer_empty_dirty_cases O_CREATE DontSetPerms 5
      ⟨.error .fileNoExist, .ok [104, 105], none, none, none⟩ ⟨"f", 2, 0o644⟩
      [104, 105]).1,
   fun hw => ((initFileBuffer_empty_dirty_cases (O_RDWR ||| O_CREATE)
      DontSetPerms 5
      ⟨.error .fileNoExist, .ok [104, 105], none, none, none⟩ ⟨"f", 2, 0o644⟩
      [104, 105]).2 hw).1,
   fun hw => ((initFileBuffer_empty_dirty_cases O_RDONLY DontSetPerms 5
      ⟨.ok ⟨"f", 2, 0o644⟩, .ok [104, 105], none, none, none⟩ ⟨"f", 2, 0o644⟩
      [104, 105]).2 hw).2⟩

/-! ### Symlink resolution (`readLinkRecursively`, `readLink`,
`adb_filesystem.go`) -/

/-- Readlink error strings from Android devices (`device_client.go`). -/
def ReadlinkInvalidArgument : String := "readlink: Invalid argument"

/-- Permission-denied output of the readlink command. -/
def ReadlinkPermissionDenied : String := "readlink: Permission denied"

/-- The depth bound: 64 symlinks ought to be deep enough for anybody. -/
def MaxLinkResolveDepth : Nat := 64

/-- A device client as seen by the resolution loop: the outcome of `Stat`
and of `RunCommand("readlink", path)` per path. -/
structure Device where
  stat : String → Except DevErr DirEntry
  runReadlink : String → Except DevErr String

/-- Embedding of `readLink`: run the readlink shell command, trim a trailing
CRLF, and map the two literal error strings to `ErrNotALink` and
`ErrNoPermission`; anything else is the link target. -/
def readLink (device : Device) (path : String) : Except AdbErr String :=
  match device.runReadlink path with
  | .error e => .error e.toAdb
  | .ok out =>
    let result := trimSuffix out "\r\n"
    if result = ReadlinkInvalidArgument then .error .notALink
    else if result = ReadlinkPermissionDenied then .error .noPermission
    else .ok result

/-- The loop of `readLinkRecursively`.  The Go code counts `currentDepth`
upward from 0 and fails when `currentDepth > MaxLinkResolveDepth` at the
top of an iteration; here `remaining = MaxLinkResolveDepth + 1 -
currentDepth` counts down, so the check becomes `remaining = 0`.  The
second component counts the readlink shell commands issued. -/
def resolveLoop (device : Device) : Nat → String → DirEntry →
    Except AdbErr (String × DirEntry) × Nat
  | 0, path, entry =>
    if entry.isSymlink then (.error .linkTooDeep, 0)
    else (.ok (path, entry), 0)
  | r + 1, path, entry =>
    if entry.isSymlink then
      match readLink device path with
      | .error e => (.error e, 1)
      | .ok path2 =>
        match device.stat path2 with
        | .error e => (.error e.toAdb, 1)
        | .ok entry2 =>
          let res := resolveLoop device r path2 entry2
          (res.1, res.2 + 1)
    else (.ok (path, entry), 0)

/-- Embedding of `readLinkRecursively`: stat the path, then follow symlinks.
Returns the result and the number of readlink calls issued. -/
def readLinkRecursively (device : Device) (path : String) :
    Except AdbErr (String × DirEntry) × Nat :=
  match device.stat path with
  | .error e => (.error e.toAdb, 0)
  | .ok entry => resolveLoop device (MaxLinkResolveDepth + 1) path entry

/-- A device on which every path is a symlink to itself. -/
def loopDevice : Device :=
  ⟨fun p => .ok ⟨p, 0, ModeSymlink⟩, fun p => .ok p⟩

/-- Counterexample to C4: on a self-referential symlink the loop issues 65
readlink calls — not at most 64 — before returning `ErrLinkTooDeep`
(`currentDepth > MaxLinkResolveDepth` is checked before the increment, so
depths 0 through 64 all resolve). -/
theorem readLinkRecursively_makes_65_calls :
    readLinkRecursively loopDevice "/a" = (.error .linkTooDeep, 65) ∧
    ¬ (65 ≤ MaxLinkResolveDepth) := by
  exact ⟨rfl, by decide⟩

/-- Helper: `readLink` never produces `ErrLinkTooDeep` — its errors are the
device error, `ErrNotALink` or `ErrNoPermission`. -/
theorem readLink_ne_linkTooDeep (device : Device) (path : String) :
    readLink device path ≠ .error .linkTooDeep := by
  unfold readLink
  cases h : device.runReadlink path with
  | error e => cases e <;> simp [DevErr.toAdb]
  | ok out =>
    by_cases h1 : trimSuffix out "\r\n" = ReadlinkInvalidArgument <;>
      by_cases h2 : trimSuffix out "\r\n" = ReadlinkPermissionDenied <;>
      simp [h1, h2] <;> rw [if_neg (by decide)] <;> simp

/-- Auxiliary bound for the resolution loop: the loop starting with
`remaining` budget issues at most `remaining` readlink calls, and returns
`ErrLinkTooDeep` only with exactly `remaining` calls issued. -/
theorem resolveLoop_count_bound (device : Device) :
    ∀ (remaining : Nat) (path : String) (entry : DirEntry),
      (resolveLoop device remaining path entry).2 ≤ remaining ∧
      ((resolveLoop device remaining path entry).1 = .error .linkTooDeep →
        (resolveLoop device remaining path entry).2 = remaining) := by
  intro remaining
  induction remaining with
  | zero =>
    intro path entry
    by_cases h : entry.isSymlink = true <;> simp [resolveLoop, h]
  | succ r ih =>
    intro path entry
    by_cases h : entry.isSymlink = true
    · simp only [resolveLoop, h, if_true]
      cases hrl : readLink device path with
      | error e =>
        simp only [hrl]
        refine ⟨show 1 ≤ r + 1 by omega, fun hres => ?_⟩
        have he : e = AdbErr.linkTooDeep := by
          have h1 : (Except.error e : Except AdbErr (String × DirEntry)) =
              .error .linkTooDeep := hres
          injection h1
        subst he
        exact absurd hrl (readLink_ne_linkTooDeep device path)
      | ok path2 =>
        simp only [hrl]
        cases hst : device.stat path2 with
        | error e =>
          simp only [hst]
          refine ⟨show 1 ≤ r + 1 by omega, fun hres => ?_⟩
          have h1 : (Except.error e.toAdb : Except AdbErr (String × DirEntry)) =
              .error .linkTooDeep := hres
          cases e <;> simp [DevErr.toAdb] at h1
        | ok entry2 =>
          simp only [hst]
          have hind := ih path2 entry2
          refine ⟨?_, fun hres => ?_⟩
          · show (resolveLoop device r path2 entry2).2 + 1 ≤ r + 1
            omega
          · show (resolveLoop device r path2 entry2).2 + 1 = r + 1
            have h2 := hind.2 hres
            omega
    · simp [resolveLoop, h]

/-- C4 (amended): for every device and path, symlink resolution issues at
most 65 readlink calls (MaxLinkResolveDepth + 1), and whenever it fails
with `ErrLinkTooDeep` it has issued exactly 65; the bound of 64 claimed by
the spec is exceeded by one. -/
theorem readLinkRecursively_call_bound (device : Device) (path : String) :
    (readLinkRecursively device path).2 ≤ MaxLinkResolveDepth + 1 ∧
    ((readLinkRecursively device path).1 = .error .linkTooDeep →
      (readLinkRecursively device path).2 = MaxLinkResolveDepth + 1) := by
  unfold readLinkRecursively
  cases hst : device.stat path with
  | error e =>
    refine ⟨by simp, fun hres => ?_⟩
    simp only at hres
    cases e <;> simp [DevErr.toAdb] at hres
  | ok entry =>
    exact resolveLoop_count_bound device (MaxLinkResolveDepth + 1) path entry

/-- Witness for the amended C4 at the self-loop device, where the bound is
attained. -/
theorem readLinkRecursively_call_bound_witness :
    (readLinkRecursively loopDevice "/a").2 ≤ MaxLinkResolveDepth + 1 ∧
    ((readLinkRecursively loopDevice "/a").1 = .error .linkTooDeep →
      (readLinkRecursively loopDevice "/a").2 = MaxLinkResolveDepth + 1) :=
  readLinkRecursively_call_bound loopDevice "/a"

/-! ### `AdbFile.Read` (`adb_file.go`) -/

/-- Embedding of `AdbFile.Read`: a non-readable handle gets
`ErrNotPermitted`; otherwise the buffer `ReadAt` runs, `io.EOF` is squashed
to a nil error, and the bytes read are returned with status OK.  The result
is the returned byte slice `buf[:n]` and the fuse status. -/
def adbFileRead (flags : Nat) (buffer : GrowableByteSlice) (bufLen off : Nat) :
    List Nat × Errno :=
  if ¬ flagsCanRead flags then ([], toErrno (some .notPermitted))
  else
    let r := buffer.readAt bufLen off
    -- r.2.2 is the io.EOF flag, converted to a nil error; ReadAt returns no
    -- other error, so the read always reports OK with the bytes obtained
    (r.1, toErrno none)

/-- C10: a readable handle never sees EOF as an error: reading at or past
the buffered length returns OK with zero bytes, and a read extending past
the end returns OK with the available short count, the bytes being the
corresponding slice of the buffer. -/
theorem adbFileRead_eof_ok (flags bufLen off : Nat)
    (buffer : GrowableByteSlice) (hr : flagsCanRead flags = true) :
    ((adbFileRead flags buffer bufLen off).2 = .OK) ∧
    (off ≥ buffer.goLen →
      adbFileRead flags buffer bufLen off = ([], .OK)) ∧
    (off < buffer.goLen → off + bufLen > buffer.goLen →
      adbFileRead flags buffer bufLen off =
        ((buffer.contents.drop off).take (buffer.goLen - off), .OK)) := by
  refine ⟨?_, ?_, ?_⟩
  · simp [adbFileRead, hr, toErrno]
  · intro hoff
    have hle : buffer.len ≤ off := hoff
    simp [adbFileRead, hr, GrowableByteSlice.readAt, GrowableByteSlice.goLen,
      hle, toErrno]
  · intro hoff hpast
    have hnot : ¬ buffer.len ≤ off := by
      simp [GrowableByteSlice.goLen] at hoff
      omega
    have hmin : min bufLen (buffer.len - off) = buffer.len - off := by
      simp [GrowableByteSlice.goLen] at hpast
      omega
    simp [adbFileRead, hr, GrowableByteSlice.readAt, GrowableByteSlice.goLen,
      hnot, hmin, toErrno]

/-- Witness for C10: a 2-byte buffer read at offset 5 gives OK and no
bytes, and read at offset 1 with a large buffer gives the short tail. -/
theorem adbFileRead_eof_ok_witness :
    ((adbFileRead O_RDONLY ⟨[104, 105], 2⟩ 1024 5).2 = .OK) ∧
    (5 ≥ GrowableByteSlice.goLen ⟨[104, 105], 2⟩ →
      adbFileRead O_RDONLY ⟨[104, 105], 2⟩ 1024 5 = ([], .OK)) ∧
    (5 < GrowableByteSlice.goLen ⟨[104, 105], 2⟩ →
      5 + 1024 > GrowableByteSlice.goLen ⟨[104, 105], 2⟩ →
      adbFileRead O_RDONLY ⟨[104, 105], 2⟩ 1024 5 =
        (((GrowableByteSlice.contents ⟨[104, 105], 2⟩).drop 5).take
          (GrowableByteSlice.goLen ⟨[104, 105], 2⟩ - 5), .OK)) :=
  adbFileRead_eof_ok O_RDONLY 1024 5 ⟨[104, 105], 2⟩ rfl

/-! ### Go `path` package: `Clean`, `Split`, `Dir`, `Base`

`CachingDeviceClient.Stat` decides the root bypass with `path.Dir` and
`path.Base`; these are translated from the Go standard library `path`
package.  The output buffer `out` is kept in reverse order (head = most
recently written byte); `dotdot` is the low-water index of `path.Clean`. -/

/-- True when the element ends here: the remaining input is empty or starts
with a slash. -/
def headIsSlashOrEnd : List Char → Bool
  | [] => true
  | c :: _ => c = '/'

/-- True when the remaining input starts with the second dot of a ".."
element. -/
def isDotDotRest : List Char → Bool
  | c :: r2 => c = '.' && headIsSlashOrEnd r2
  | [] => false

/-- The ".." backtracking loop of `path.Clean`: pop output characters
(`popped` is the one just excluded) while the length exceeds `dotdot` and
no slash has been popped. -/
def cleanBacktrack (dotdot : Nat) : Char → List Char → List Char
  | _, [] => []
  | popped, c :: rest =>
    if (c :: rest).length > dotdot ∧ popped ≠ '/' then
      cleanBacktrack dotdot c rest
    else c :: rest

/-- The main loop of `path.Clean`.  The Go inner loop that copies a
component byte-for-byte is represented by the `inComp = true` mode (a
terminating slash returns to scan mode, which is what the Go outer loop
does with it). -/
def cleanLoop (rooted : Bool) : List Char → Bool → List Char → Nat →
    List Char
  | [], _, out, _ => out
  | c :: rest, true, out, dotdot =>
    if c = '/' then cleanLoop rooted rest false out dotdot
    else cleanLoop rooted rest true (c :: out) dotdot
  | c :: rest, false, out, dotdot =>
    if c = '/' then
      -- empty path element
      cleanLoop rooted rest false out dotdot
    else if c = '.' ∧ headIsSlashOrEnd rest then
      -- "." element
      cleanLoop rooted rest false out dotdot
    else if c = '.' ∧ isDotDotRest rest then
      -- ".." element: the second dot is consumed as well
      match rest with
      | _ :: r2 =>
        if out.length > dotdot then
          -- can backtrack
          match out with
          | c0 :: rest0 => cleanLoop rooted r2 false
              (cleanBacktrack dotdot c0 rest0) dotdot
          | [] => cleanLoop rooted r2 false [] dotdot
        else if ¬ rooted then
          -- cannot backtrack, keep the ".."
          let out1 := if out.length > 0 then '/' :: out else out
          cleanLoop rooted r2 false ('.' :: '.' :: out1) (out1.length + 2)
        else cleanLoop rooted r2 false out dotdot
      | [] => out
    else
      -- real path element: add a slash if needed, then copy the element
      let out1 :=
        if (rooted ∧ out.length ≠ 1) ∨ (¬ rooted ∧ out.length ≠ 0) then
          '/' :: out
        else out
      cleanLoop rooted rest true (c :: out1) dotdot

/-- Embedding of `path.Clean`. -/
def goClean (p : String) : String :=
  if p = "" then "."
  else
    let rooted := p.data.head? = some '/'
    let out :=
      if rooted then cleanLoop true (p.data.drop 1) false ['/'] 1
      else cleanLoop false p.data false [] 0
    if out.length = 0 then "." else ⟨out.reverse⟩

/-- The directory part of `path.Split`: everything up to and including the
final slash (empty when there is no slash). -/
def goDirPart (p : String) : List Char :=
  (p.data.reverse.dropWhile (fun c => c ≠ '/')).reverse

/-- Embedding of `path.Dir`: `Clean` of the `Split` directory part. -/
def goDir (p : String) : String := goClean ⟨goDirPart p⟩

/-- Embedding of `path.Base`: strip trailing slashes, take the part after
the last slash; all slashes gives "/", empty input gives ".". -/
def goBase (p : String) : String :=
  if p = "" then "."
  else
    let t := (p.data.reverse.dropWhile (fun c => c = '/')).reverse
    let t2 := (t.reverse.takeWhile (fun c => c ≠ '/')).reverse
    if t2 = [] then "/" else ⟨t2⟩

/-- Helper: prepending to a nonempty list keeps its last element. -/
theorem getLast?_cons_ne_nil (a : Char) (l : List Char) (h : l ≠ []) :
    (a :: l).getLast? = l.getLast? := by
  cases l with
  | nil => exact absurd rfl h
  | cons b t => simp [List.getLast?_cons_cons]

/-- Helper: the backtracking loop never pops the bottom of the output when
`dotdot ≥ 1`, so a trailing slash at the bottom (the last element of the
reversed buffer) survives. -/
theorem cleanBacktrack_keeps_bottom (d : Nat) (hd : 1 ≤ d) :
    ∀ (out : List Char) (popped : Char), out ≠ [] →
      out.getLast? = some '/' →
      cleanBacktrack d popped out ≠ [] ∧
      (cleanBacktrack d popped out).getLast? = some '/' := by
  intro out
  induction out with
  | nil => intro popped hne _; exact absurd rfl hne
  | cons c rest ih =>
    intro popped _ hlast
    by_cases hcond : (c :: rest).length > d ∧ popped ≠ '/'
    · have hrest : rest ≠ [] := by
        intro he
        subst he
        simp at hcond
        omega
      have hlast2 : rest.getLast? = some '/' := by
        rwa [getLast?_cons_ne_nil c rest hrest] at hlast
      rw [cleanBacktrack, if_pos hcond]
      exact ih c hrest hlast2
    · rw [cleanBacktrack, if_neg hcond]
      exact ⟨by simp, hlast⟩

/-- Helper: on a rooted path the main `Clean` loop keeps the initial slash
at the bottom of the (reversed) output buffer and never empties it, for any
`dotdot ≥ 1`. -/
theorem cleanLoop_rooted_keeps_slash (d : Nat) (hd : 1 ≤ d) :
    ∀ (n : Nat) (input : List Char) (inComp : Bool) (out : List Char),
      input.length ≤ n → out ≠ [] → out.getLast? = some '/' →
      cleanLoop true input inComp out d ≠ [] ∧
      (cleanLoop true input inComp out d).getLast? = some '/' := by
  intro n
  induction n with
  | zero =>
    intro input inComp out hlen hne hlast
    have hinp : input = [] := by
      cases input with
      | nil => rfl
      | cons c rest => simp at hlen
    subst hinp
    exact ⟨by simp only [cleanLoop]; exact hne,
      by simp only [cleanLoop]; exact hlast⟩
  | succ m ih =>
    intro input inComp out hlen hne hlast
    cases input with
    | nil =>
      exact ⟨by simp only [cleanLoop]; exact hne,
        by simp only [cleanLoop]; exact hlast⟩
    | cons c rest =>
      have hlen2 : rest.length ≤ m := by simp at hlen; omega
      cases inComp with
      | true =>
        simp only [cleanLoop]
        by_cases hsl : c = '/'
        · rw [if_pos hsl]
          exact ih rest false out hlen2 hne hlast
        · rw [if_neg hsl]
          exact ih rest true (c :: out) hlen2 (by simp)
            (by rwa [getLast?_cons_ne_nil c out hne])
      | false =>
        rw [cleanLoop.eq_def]
        simp only [not_true, true_and, false_and, or_false, if_false]
        by_cases hsl : c = '/'
        · rw [if_pos hsl]
          exact ih rest false out hlen2 hne hlast
        · rw [if_neg hsl]
          by_cases hdot : c = '.' ∧ headIsSlashOrEnd rest = true
          · rw [if_pos hdot]
            exact ih rest false out hlen2 hne hlast
          · rw [if_neg hdot]
            by_cases hdd : c = '.' ∧ isDotDotRest rest = true
            · rw [if_pos hdd]
              cases rest with
              | nil => simp [isDotDotRest] at hdd
              | cons c1 r2 =>
                simp only
                have hlen3 : r2.length ≤ m := by simp at hlen; omega
                by_cases hbt : out.length > d
                · rw [if_pos hbt]
                  cases out with
                  | nil => exact absurd rfl hne
                  | cons c0 rest0 =>
                    simp only
                    have hrest0 : rest0 ≠ [] := by
                      intro he
                      subst he
                      simp at hbt
                      omega
                    have hlast0 : rest0.getLast? = some '/' := by
                      rwa [getLast?_cons_ne_nil c0 rest0 hrest0] at hlast
                    obtain ⟨hbne, hblast⟩ :=
                      cleanBacktrack_keeps_bottom d hd rest0 c0 hrest0 hlast0
                    exact ih r2 false (cleanBacktrack d c0 rest0) hlen3
                      hbne hblast
                · rw [if_neg hbt]
                  exact ih r2 false out hlen3 hne hlast
            · rw [if_neg hdd]
              by_cases hsep : out.length ≠ 1
              · rw [if_pos hsep]
                refine ih rest true (c :: '/' :: out) hlen2 (by simp) ?_
                rw [getLast?_cons_ne_nil c ('/' :: out) (by simp)]
                rwa [getLast?_cons_ne_nil '/' out hne]
              · rw [if_neg hsep]
                exact ih rest true (c :: out) hlen2 (by simp)
                  (by rwa [getLast?_cons_ne_nil c out hne])

/-- Helper: dropping a satisfied prefix does not change the last element. -/
theorem getLast?_dropWhile (q : Char → Bool) (l : List Char)
    (h : l.dropWhile q ≠ []) : (l.dropWhile q).getLast? = l.getLast? := by
  induction l with
  | nil => simp at h
  | cons c rest ih =>
    by_cases hq : q c
    · rw [List.dropWhile_cons_of_pos hq] at h ⊢
      have hrest : rest ≠ [] := by
        intro he
        subst he
        simp at h
      rw [ih h, getLast?_cons_ne_nil c rest hrest]
    · rw [List.dropWhile_cons_of_neg hq]

/-- Helper: the head of a `dropWhile` result does not satisfy the
predicate. -/
theorem head?_dropWhile_false (q : Char → Bool) (l : List Char) :
    ∀ c, (l.dropWhile q).head? = some c → q c = false := by
  induction l with
  | nil => intro c hc; simp at hc
  | cons a rest ih =>
    intro c hc
    by_cases hq : q a
    · rw [List.dropWhile_cons_of_pos hq] at hc
      exact ih c hc
    · rw [List.dropWhile_cons_of_neg hq] at hc
      simp at hc
      subst hc
      simpa using hq

/-- Helper: `takeWhile` keeps a head that satisfies the predicate. -/
theorem head?_takeWhile_pos (q : Char → Bool) (l : List Char) (c : Char)
    (h : l.head? = some c) (hq : q c = true) :
    (l.takeWhile q).head? = some c := by
  cases l with
  | nil => simp at h
  | cons a rest =>
    simp at h
    subst h
    rw [List.takeWhile_cons_of_pos hq]
    rfl

/-- Helper: `Clean` of a rooted path is rooted. -/
theorem goClean_rooted_head (p : String) (h : p.data.head? = some '/') :
    (goClean p).data.head? = some '/' := by
  have hne : p ≠ "" := by
    intro he
    subst he
    simp at h
  unfold goClean
  rw [if_neg hne]
  dsimp only
  rw [if_pos h]
  obtain ⟨hne2, hlast2⟩ := cleanLoop_rooted_keeps_slash 1 le_rfl
    (p.data.drop 1).length (p.data.drop 1) false ['/'] le_rfl (by simp)
    (by simp)
  rw [if_neg (by simpa [List.length_eq_zero] using hne2)]
  show (cleanLoop true (p.data.drop 1) false ['/'] 1).reverse.head? = some '/'
  rw [List.head?_reverse]
  exact hlast2

/-- Helper: `path.Dir` of a rooted path is rooted. -/
theorem goDir_head_slash (p : String) (h1 : p.data.head? = some '/') :
    (goDir p).data.head? = some '/' := by
  unfold goDir
  apply goClean_rooted_head
  show (goDirPart p).head? = some '/'
  unfold goDirPart
  have hmem : '/' ∈ p.data.reverse := by
    cases hd : p.data with
    | nil => simp [hd] at h1
    | cons a tl =>
      rw [hd] at h1
      simp at h1
      subst h1
      simp [hd]
  have hne : p.data.reverse.dropWhile (fun c => c ≠ '/') ≠ [] := by
    rw [ne_eq, List.dropWhile_eq_nil_iff]
    push_neg
    exact ⟨'/', hmem, by simp⟩
  rw [List.head?_reverse, getLast?_dropWhile _ _ hne,
    List.getLast?_reverse, h1]

/-- Helper: `path.Base` of a string containing a non-slash character starts
with a non-slash character. -/
theorem goBase_head_ne_slash (p : String) (h2 : ∃ c ∈ p.data, c ≠ '/') :
    ∃ c, (goBase p).data.head? = some c ∧ c ≠ '/' := by
  obtain ⟨c0, hc0mem, hc0⟩ := h2
  have hne : p ≠ "" := by
    intro he
    subst he
    simp at hc0mem
  unfold goBase
  rw [if_neg hne]
  dsimp only
  set D := p.data.reverse.dropWhile (fun c => c = '/') with hD
  have hDne : D ≠ [] := by
    rw [hD, ne_eq, List.dropWhile_eq_nil_iff]
    push_neg
    exact ⟨c0, by simpa using hc0mem, by simpa using hc0⟩
  obtain ⟨ch, hchlast⟩ : ∃ ch, D.head? = some ch := by
    cases hDh : D with
    | nil => exact absurd hDh hDne
    | cons a tl => exact ⟨a, rfl⟩
  have hch : ch ≠ '/' := by
    have := head?_dropWhile_false (fun c => c = '/') p.data.reverse ch hchlast
    simpa using this
  have hDrev : D.reverse.reverse = D := List.reverse_reverse D
  have htake : (D.reverse.reverse.takeWhile (fun c => c ≠ '/')).head? =
      some ch := by
    rw [hDrev]
    exact head?_takeWhile_pos _ D ch hchlast (by simpa using hch)
  set T := D.reverse.reverse.takeWhile (fun c => c ≠ '/') with hT
  have hTne : T ≠ [] := by
    intro he
    rw [he] at htake
    simp at htake
  have hT2ne : T.reverse ≠ [] := by simpa using hTne
  rw [if_neg hT2ne]
  obtain ⟨cl, hcl⟩ : ∃ cl, T.getLast? = some cl := by
    rw [List.getLast?_eq_getLast_of_ne_nil hTne]
    exact ⟨T.getLast hTne, rfl⟩
  have hclmem : cl ∈ T := by
    rw [List.getLast?_eq_getLast_of_ne_nil hTne] at hcl
    have := List.getLast_mem hTne
    simpa [← Option.some_inj.mp hcl] using this
  have hclpred : cl ≠ '/' := by
    have := List.mem_takeWhile_imp hclmem
    simpa using this
  refine ⟨cl, ?_, hclpred⟩
  show T.reverse.head? = some cl
  rw [List.head?_reverse]
  exact hcl

/-- Helper: for an absolute path that is not entirely slashes, `path.Dir`
and `path.Base` differ — `Dir` starts with a slash, `Base` does not. -/
theorem goDir_ne_goBase (p : String) (h1 : p.data.head? = some '/')
    (h2 : ∃ c ∈ p.data, c ≠ '/') : goDir p ≠ goBase p := by
  intro heq
  have hdir := goDir_head_slash p h1
  obtain ⟨c, hbase, hc⟩ := goBase_head_ne_slash p h2
  rw [heq, hbase] at hdir
  have : '/' = c := by simpa using hdir.symm
  exact hc this.symm

/-! ### `CachingDeviceClient` (`unnamed/part_024`) and the dir-entry cache -/

/-- Embedding of `CachedDirEntries`: the ordered listing plus the name
index.  The Go `ByName` map is modelled as an association list with
map-insert semantics (later inserts shadow earlier keys). -/
structure CachedDirEntries where
  inOrder : List DirEntry
  byName : List (String × DirEntry)
  deriving DecidableEq, Repr

/-- Go map assignment on the association list: the new binding shadows any
previous binding for the key. -/
def mapInsert (m : List (String × DirEntry)) (k : String) (v : DirEntry) :
    List (String × DirEntry) :=
  (k, v) :: m.filter (fun kv => kv.1 ≠ k)

/-- Embedding of `NewCachedDirEntries`: index every entry of the ordered
listing by name. -/
def NewCachedDirEntries (entries : List DirEntry) : CachedDirEntries :=
  ⟨entries, entries.foldl (fun m e => mapInsert m e.name e) []⟩

/-- The dir-entry cache contents: association from directory path to its
cached listing.  The cache library itself (`NewDirEntryCache`, package
adbfs) is not under src; `Get`, the storing `GetOrLoad` and
`RemoveEventually` are modelled from the spec (and from the sibling
`realDirEntryCache` in `fs/util.go`).  TTL expiry only ever removes
entries and is not modelled. -/
def DirEntryCacheState := List (String × CachedDirEntries)

/-- Modelled from the spec: `DirEntryCache.Get` — return the unexpired entry
for the path when present. -/
def cacheGet (c : DirEntryCacheState) (p : String) : Option CachedDirEntries :=
  match c with
  | [] => none
  | (k, v) :: rest => if k = p then some v else cacheGet rest p

/-- Modelled from the spec: storing into the cache (the `c.Set(path,
entries, DefaultExpiration)` step of `GetOrLoad`). -/
def cacheSet (c : DirEntryCacheState) (p : String) (e : CachedDirEntries) :
    DirEntryCacheState :=
  (p, e) :: c.filter (fun kv => kv.1 ≠ p)

/-- Modelled from the spec: `GetOrLoad` — return a cached entry on hit, else
run the loader and store its result on success.  `load` is the outcome the
loader would produce.  Returns the new cache, the result, and the hit
flag. -/
def cacheGetOrLoad (c : DirEntryCacheState) (p : String)
    (load : Except DevErr CachedDirEntries) :
    DirEntryCacheState × Except DevErr CachedDirEntries × Bool :=
  match cacheGet c p with
  | some e => (c, .ok e, true)
  | none =>
    match load with
    | .error e => (c, .error e, false)
    | .ok e => (cacheSet c p e, .ok e, false)

/-- Modelled from the spec: `RemoveEventually` must make the next `Get` for
the path miss; modelled as immediate removal. -/
def cacheRemove (c : DirEntryCacheState) (p : String) : DirEntryCacheState :=
  c.filter (fun kv => kv.1 ≠ p)

/-- Embedding of `CachingDeviceClient.Stat`: bypass the cache when
`path.Dir` equals `path.Base` (the root); otherwise a cached parent listing
is authoritative — the entry indexed by the basename, or a
"file does not exist" error.  On a cache miss, delegate to the inner
client.  `inner` is the inner client Stat; the second component records
whether the inner Stat was issued. -/
def cachingStat (inner : String → Except DevErr DirEntry)
    (cache : DirEntryCacheState) (name : String) :
    Except AdbErr DirEntry × Bool :=
  let dir := goDir name
  let base := goBase name
  if dir = base then
    -- never consult the cache for the root stat
    ((inner name).mapError DevErr.toAdb, true)
  else
    match cacheGet cache dir with
    | some entries =>
      match entries.byName.lookup base with
      | some entry => (.ok entry, false)
      | none => (.error .fileNoExist, false)
    | none => ((inner name).mapError DevErr.toAdb, true)

/-- C2: for a non-root absolute path (it starts with a slash and is not all
slashes), a cached listing of the parent is authoritative: `Stat` returns
the entry indexed by the basename, or a "file does not exist" error when
the basename is absent, in both cases without an inner `Stat`; and when
`path.Dir` equals `path.Base` (the root) the cache is bypassed and the
inner `Stat` is issued. -/
theorem cachingStat_cache_authority (inner : String → Except DevErr DirEntry)
    (cache : DirEntryCacheState) (name root : String)
    (entries : CachedDirEntries)
    (habs : name.data.head? = some '/') (hns : ∃ c ∈ name.data, c ≠ '/')
    (hcache : cacheGet cache (goDir name) = some entries) :
    (cachingStat inner cache name =
      (match entries.byName.lookup (goBase name) with
       | some entry => (.ok entry, false)
       | none => (.error .fileNoExist, false))) ∧
    ((cachingStat inner cache name).2 = false) ∧
    (goDir root = goBase root →
      cachingStat inner cache root = ((inner root).mapError DevErr.toAdb, true)) := by
  have hne := goDir_ne_goBase name habs hns
  refine ⟨?_, ?_, ?_⟩
  · rw [cachingStat.eq_def]
    dsimp only
    rw [if_neg hne, hcache]
  · rw [cachingStat.eq_def]
    dsimp only
    rw [if_neg hne, hcache]
    dsimp only
    cases entries.byName.lookup (goBase name) <;> rfl
  · intro hroot
    rw [cachingStat.eq_def]
    dsimp only
    rw [if_pos hroot]

/-- Witness for C2 at the path "/a/b" with a cached listing for "/a"
holding "b", and the root "/". -/
theorem cachingStat_cache_authority_witness :
    (cachingStat (fun _ => .error .ioOther)
        [("/a", ⟨[⟨"b", 7, 0o644⟩], [("b", ⟨"b", 7, 0o644⟩)]⟩)] "/a/b" =
      (match ([("b", (⟨"b", 7, 0o644⟩ : DirEntry))]).lookup (goBase "/a/b") with
       | some entry => (.ok entry, false)
       | none => (.error .fileNoExist, false))) ∧
    ((cachingStat (fun _ => .error .ioOther)
        [("/a", ⟨[⟨"b", 7, 0o644⟩], [("b", ⟨"b", 7, 0o644⟩)]⟩)] "/a/b").2 =
      false) ∧
    (goDir "/" = goBase "/" →
      cachingStat (fun _ => .error .ioOther)
          [("/a", ⟨[⟨"b", 7, 0o644⟩], [("b", ⟨"b", 7, 0o644⟩)]⟩)] "/" =
        (((fun _ => (.error .ioOther : Except DevErr DirEntry)) "/").mapError
          DevErr.toAdb, true)) :=
  cachingStat_cache_authority (fun _ => .error .ioOther)
    [("/a", ⟨[⟨"b", 7, 0o644⟩], [("b", ⟨"b", 7, 0o644⟩)]⟩)] "/a/b" "/"
    ⟨[⟨"b", 7, 0o644⟩], [("b", ⟨"b", 7, 0o644⟩)]⟩ rfl
    ⟨'a', by decide, by decide⟩ rfl

/-- Embedding of `CachingDeviceClient.ListDirEntries`: `GetOrLoad` with the
inner list call as loader (wrapping the entries via `NewCachedDirEntries`),
returning the ordered listing. -/
def cachingListDirEntries (cache : DirEntryCacheState) (p : String)
    (innerList : Except DevErr (List DirEntry)) :
    DirEntryCacheState × Except AdbErr (List DirEntry) × Bool :=
  let r := cacheGetOrLoad cache p (innerList.map NewCachedDirEntries)
  (r.1, (r.2.1.map (fun e => e.inOrder)).mapError DevErr.toAdb, r.2.2)

/-- Decidable equality of device-call outcomes. -/
instance {e a : Type} [DecidableEq e] [DecidableEq a] :
    DecidableEq (Except e a) := fun x y =>
  match x, y with
  | .ok x1, .ok y1 =>
    if h : x1 = y1 then isTrue (by rw [h]) else isFalse (by simp [h])
  | .error x1, .error y1 =>
    if h : x1 = y1 then isTrue (by rw [h]) else isFalse (by simp [h])
  | .ok _, .error _ => isFalse (by simp)
  | .error _, .ok _ => isFalse (by simp)

/-- A caching-device-client operation, as far as the cache state is
concerned.  For `listDir`, `innerList` is the outcome the inner list call
would produce; an `openWriteClose` is the `Close` of a writer obtained from
`OpenWrite` on `name`. -/
inductive CacheOp where
  | statOp (name : String)
  | listDir (p : String) (innerList : Except DevErr (List DirEntry))
  | openWriteClose (name : String)
  deriving DecidableEq, Repr

/-- The cache-state transition of each operation: `Stat` only reads the
cache (`Get`); `ListDirEntries` runs `GetOrLoad`; closing an `OpenWrite`
writer removes the parent directory entry (`RemoveEventually`). -/
def applyCacheOp (c : DirEntryCacheState) : CacheOp → DirEntryCacheState
  | .statOp _ => c
  | .listDir p innerList => (cachingListDirEntries c p innerList).1
  | .openWriteClose name => cacheRemove c (goDir name)

/-- Run a sequence of caching-client operations against a cache state. -/
def runCacheOps (c : DirEntryCacheState) : List CacheOp → DirEntryCacheState
  | [] => c
  | op :: ops => runCacheOps (applyCacheOp c op) ops

/-- Helper: filtering the cache cannot create an entry. -/
theorem cacheGet_filter_none (c : DirEntryCacheState)
    (f : String × CachedDirEntries → Bool) (q : String)
    (h : cacheGet c q = none) : cacheGet (c.filter f) q = none := by
  induction c with
  | nil => rfl
  | cons kv rest ih =>
    rw [cacheGet] at h
    by_cases hk : kv.1 = q
    · rw [if_pos hk] at h
      cases h
    · rw [if_neg hk] at h
      cases hf : f kv with
      | true =>
        cases kv with
        | mk k v =>
          rw [List.filter_cons_of_pos hf, cacheGet, if_neg hk]
          exact ih h
      | false =>
        rw [List.filter_cons_of_neg (by simp [hf])]
        exact ih h

/-- Counterexample to C7: listing the root directory caches the root — on
an empty cache, `ListDirEntries("/")` leaves a cache entry for "/". -/
theorem listDir_root_caches_root :
    cacheGet (runCacheOps [] [.listDir "/" (.ok [⟨"a", 1, 0⟩])]) "/" =
      some (NewCachedDirEntries [⟨"a", 1, 0⟩]) ∧
    some (NewCachedDirEntries [⟨"a", 1, 0⟩]) ≠ none := by
  exact ⟨rfl, by simp⟩

/-- C7 (amended): the cache holds no entry for the root path "/" in every
state reachable by caching-client operations as long as `ListDirEntries` is
never invoked on the root itself — `Stat` never writes the cache and the
root bypass keeps root stats live, and writer-close invalidation only
removes entries; but a `ListDirEntries` of the root does insert a root
entry. -/
theorem cache_no_root_without_root_list (ops : List CacheOp)
    (hops : ∀ p l, CacheOp.listDir p l ∈ ops → p ≠ "/") :
    cacheGet (runCacheOps [] ops) "/" = none := by
  suffices hgen : ∀ (c : DirEntryCacheState),
      cacheGet c "/" = none →
      (∀ p l, CacheOp.listDir p l ∈ ops → p ≠ "/") →
      cacheGet (runCacheOps c ops) "/" = none by
    exact hgen [] rfl hops
  clear hops
  induction ops with
  | nil => intro c hc _; exact hc
  | cons op rest ih =>
    intro c hc hops
    rw [runCacheOps]
    refine ih (applyCacheOp c op) ?_ ?_
    · cases op with
      | statOp name => exact hc
      | listDir p l =>
        have hp : p ≠ "/" := hops p l (List.mem_cons_self _ _)
        rw [applyCacheOp, cachingListDirEntries]
        dsimp only
        rw [cacheGetOrLoad.eq_def]
        cases hg : cacheGet c p with
        | some e => exact hc
        | none =>
          cases l with
          | error e => exact hc
          | ok entries =>
            dsimp only [Except.map]
            rw [cacheSet]
            rw [cacheGet, if_neg hp]
            exact cacheGet_filter_none c _ "/" hc
      | openWriteClose name =>
        rw [applyCacheOp, cacheRemove]
        exact cacheGet_filter_none c _ "/" hc
    · intro p l hmem
      exact hops p l (List.mem_cons_of_mem _ hmem)

/-- Witness for the amended C7: a stat of the root, a listing of "/a" and a
writer close under "/a" leave no root entry. -/
theorem cache_no_root_without_root_list_witness :
    cacheGet (runCacheOps []
      [.statOp "/", .listDir "/a" (.ok [⟨"b", 1, 0⟩]),
       .openWriteClose "/a/b"]) "/" = none :=
  cache_no_root_without_root_list
    [.statOp "/", .listDir "/a" (.ok [⟨"b", 1, 0⟩]), .openWriteClose "/a/b"]
    (by
      intro p l hmem
      have hp : p = "/a" := by
        simp only [List.mem_cons, List.not_mem_nil, or_false] at hmem
        rcases hmem with h | h | h
        · exact absurd h (by simp)
        · injection h with h1 h2
        · exact absurd h (by simp)
      subst hp
      decide)
